import Mathlib

/-!
# robhurring/cmd: command descriptors, single runs and pipelines

A shallow embedding of `cmd.go`.

* Go strings are Lean `String`s, Go slices are Lean `List`s.
* A Go `error` is its message (`Err = String`); `nil` is `none`.
* A `panic` is an `Except.error` carrying the reason.
* The pointer-mutating builder `WithArgs` is a function returning the updated descriptor.
* Everything `cmd.go` obtains from outside the repository (the `go-shellquote`
  tokenizer, the operating system behind `os/exec` and `syscall.Exec`) is a parameter
  of the embedding, so every general theorem holds for every tokenizer and every
  behaviour of the operating system.  Concrete instances are provided to evaluate the
  definitions.
* A call that never returns has the result `none`.
-/

namespace RobCmd

/-! ## Data model -/

/-- A Go `error` value, identified with its message. -/
abbrev Err := String

/-- `type Cmd struct { Name string; Args []string }` (cmd.go, lines 20-26). -/
structure Cmd where
  Name : String
  Args : List String
  deriving DecidableEq, Repr

/-- The two ways `New` can abort: `panic(err)` on a tokenizer error (line 159) and the
runtime panic of `cmds[0]` on an empty token slice (line 162). -/
inductive Panic where
  | tokenizer (e : Err)
  | indexOutOfRange
  deriving DecidableEq, Repr

deriving instance DecidableEq for Except

/-- The type of `shellquote.Split`: a command line to its tokens, or an error. -/
abbrev Tokenizer := String → Except Err (List String)

/-! ## The tokenizer used to evaluate the definitions -/

/-- Lexer states of `shellSplit`. -/
inductive LexMode where
  | skip
  | raw
  | single
  | double
  deriving DecidableEq, Repr

/-- Whitespace separating words: space, newline, tab. -/
def isSplitChar (c : Char) : Bool :=
  c == ' ' || c == '\n' || c == '\t'

/-- Characters a backslash escapes inside double quotes. -/
def isDoubleEscapeChar (c : Char) : Bool :=
  c == '$' || c == Char.ofNat 96 || c == '"' || c == '\n' || c == '\\'

/-- One pass of the shell-style lexer over the remaining characters.  `words` are the
finished words, `buf` the word under construction. -/
def lexLoop : LexMode → List String → List Char → List Char → Except Err (List String)
  | .skip, words, _, [] => .ok words
  | .raw, words, buf, [] => .ok (words ++ [String.mk buf])
  | .single, _, _, [] => .error "Unterminated single-quoted string"
  | .double, _, _, [] => .error "Unterminated double-quoted string"
  | .skip, words, buf, c :: cur =>
    if isSplitChar c then lexLoop .skip words buf cur
    else if c == '\\' then
      match cur with
      | [] => .error "Unterminated backslash-escape"
      | c2 :: rest =>
        if c2 == '\n' then lexLoop .skip words buf rest
        else lexLoop .raw words [c2] rest
    else if c == '\'' then lexLoop .single words [] cur
    else if c == '"' then lexLoop .double words [] cur
    else lexLoop .raw words [c] cur
  | .raw, words, buf, c :: cur =>
    if c == '\'' then lexLoop .single words buf cur
    else if c == '"' then lexLoop .double words buf cur
    else if c == '\\' then
      match cur with
      | [] => .error "Unterminated backslash-escape"
      | c2 :: rest =>
        if c2 == '\n' then lexLoop .raw words buf rest
        else lexLoop .raw words (buf ++ [c2]) rest
    else if isSplitChar c then lexLoop .skip (words ++ [String.mk buf]) [] cur
    else lexLoop .raw words (buf ++ [c]) cur
  | .single, words, buf, c :: cur =>
    if c == '\'' then lexLoop .raw words buf cur
    else lexLoop .single words (buf ++ [c]) cur
  | .double, words, buf, c :: cur =>
    if c == '"' then lexLoop .raw words buf cur
    else if c == '\\' then
      match cur with
      | [] => .error "Unterminated double-quoted string"
      | c2 :: rest =>
        if isDoubleEscapeChar c2 then
          if c2 == '\n' then lexLoop .double words buf rest
          else lexLoop .double words (buf ++ [c2]) rest
        else lexLoop .double words (buf ++ [c, c2]) rest
    else lexLoop .double words (buf ++ [c]) cur

/-- Modelled from the spec: the shell-style tokenizer, an external collaborator
(`github.com/kballard/go-shellquote`, `Split`) whose code is not part of the repository.
Words are separated by spaces, tabs and newlines; single quotes, double quotes and
backslash escapes are honoured; an unbalanced quote or a trailing backslash is an error.
It is only ever used as a concrete argument for the `Tokenizer` parameter. -/
def shellSplit : Tokenizer :=
  fun input => lexLoop .skip [] [] input.data

/-! ## Command descriptors -/

/-- `func New(cmd string) *Cmd` (cmd.go, lines 154-167).  `split` is `shellquote.Split`.
The loop `for _, arg := range cmds[1:] { args = append(args, arg) }` is the fold. -/
def New (split : Tokenizer) (cmd : String) : Except Panic Cmd :=
  match split cmd with
  | .error err => .error (.tokenizer err)
  | .ok cmds =>
    match cmds with
    | [] => .error .indexOutOfRange
    | name :: rest =>
      .ok { Name := name, Args := rest.foldl (fun args arg => args ++ [arg]) [] }

/-- `func (cmd *Cmd) WithArgs(args ...string) *Cmd` (cmd.go, lines 54-60): the loop
`for _, arg := range args { cmd.Args = append(cmd.Args, arg) }`, then `return cmd`. -/
def WithArgs (cmd : Cmd) (args : List String) : Cmd :=
  args.foldl (fun c arg => { c with Args := c.Args ++ [arg] }) cmd

/-- Go's `strings.Join(elems, sep)`: nothing for no element, the element itself for one,
otherwise the first element followed by `sep` and the next element, repeatedly. -/
def Join (elems : List String) (sep : String) : String :=
  match elems with
  | [] => ""
  | [e] => e
  | e :: rest => rest.foldl (fun b s => b ++ sep ++ s) e

/-- `func (cmd *Cmd) String() string` (cmd.go, lines 49-52):
`fmt.Sprintf("%s %s", cmd.Name, strings.Join(cmd.Args, " "))`. -/
def CmdString (cmd : Cmd) : String :=
  cmd.Name ++ " " ++ Join cmd.Args " "

/-! ## Process handles and the operating system -/

/-- What a standard stream of a process handle is attached to. -/
inductive Endpoint where
  /-- The field is `nil`. -/
  | unset
  /-- The read end of the pipe made by `StdoutPipe` on handle `i`. -/
  | pipeReader (i : Nat)
  /-- The write end of that pipe, which `StdoutPipe` installs as handle `i`'s `Stdout`. -/
  | pipeWriter (i : Nat)
  /-- The buffer `&output` of `Pipeline`. -/
  | outputBuf
  /-- The buffer `&stderr` of `Pipeline`. -/
  | stderrBuf
  /-- The caller's own `os.Stdin`. -/
  | osStdin
  /-- The caller's own `os.Stdout`. -/
  | osStdout
  /-- The caller's own `os.Stderr`. -/
  | osStderr
  deriving DecidableEq, Repr

/-- The fields of `exec.Cmd` that matter to `cmd.go`.  `Err` is the error of the search
path lookup made by `exec.Command`, which `Start` returns when it is set. -/
structure ExecCmd where
  Path : String
  Args : List String
  Err : Option Err
  Stdin : Endpoint
  Stdout : Endpoint
  Stderr : Endpoint
  deriving DecidableEq, Repr

/-- The operating system, as seen from `cmd.go` through `os/exec` and `syscall`: a state
`σ` and the primitive calls.  Handles are named by their position in `cmds`.  A call may
fail (`some err`) or succeed (`none`) and may change the state in any way; waiting for a
process may also never return. -/
structure OS (σ : Type) where
  /-- Whether `filepath.Base(name) == name`: the name is a bare program name, which
  `exec.Command` resolves through the search path. -/
  baseIsName : String → Bool
  /-- `exec.LookPath(name)`: the resolved path, or the lookup error. -/
  lookPath : String → σ → Except Err String
  /-- `cmds[i].StdoutPipe()`: creating the pipe may fail. -/
  stdoutPipe : Nat → σ → Option Err × σ
  /-- The descriptors a handle closes when `Start` gives up on a failed lookup. -/
  closeDescriptors : Nat → σ → σ
  /-- The creation of the process of a handle, inside `Start`. -/
  startProcess : Nat → ExecCmd → σ → Option Err × σ
  /-- `cmds[i].Wait()`: `none` when the process never ends and the call never returns,
  otherwise the error of the wait (`nil` for a successful exit) and the new state. -/
  wait : Nat → ExecCmd → σ → Option (Option Err × σ)
  /-- `output.String()`: what has reached the final-output buffer so far. -/
  outputString : σ → String
  /-- `stderr.String()`: what has reached the shared stderr buffer so far. -/
  stderrString : σ → String
  /-- `os.Environ()`. -/
  environ : σ → List String
  /-- `syscall.Exec(binary, args, env)`: `none` when the process image is replaced (the
  call never returns), `some err` when it returns. -/
  exec : String → List String → List String → σ → Option Err

/-- `exec.Command(name, arg...)`: a handle whose argument vector is `name` followed by
`arg`, with no stream attached.  A bare name is looked up in the search path: the handle
gets the resolved path, or keeps the name and records the lookup error.  No process
exists yet. -/
def Command {σ : Type} (os : OS σ) (name : String) (arg : List String) (w : σ) : ExecCmd :=
  let cmd : ExecCmd :=
    { Path := name, Args := name :: arg, Err := none,
      Stdin := .unset, Stdout := .unset, Stderr := .unset }
  if os.baseIsName name then
    match os.lookPath name w with
    | .error err => { cmd with Err := some err }
    | .ok lp => { cmd with Path := lp }
  else cmd

/-- `(*exec.Cmd).Start()` on handle `i`: a recorded lookup error is returned at once,
after closing the handle's descriptors; otherwise the process is created. -/
def Start {σ : Type} (os : OS σ) (i : Nat) (c : ExecCmd) (w : σ) : Option Err × σ :=
  match c.Err with
  | some err => (some err, os.closeDescriptors i w)
  | none => os.startProcess i c w

/-- `(*exec.Cmd).Run()` on handle `i`: `Start`, and when it succeeds, `Wait`. -/
def ExecRun {σ : Type} (os : OS σ) (i : Nat) (c : ExecCmd) (w : σ) : Option (Option Err × σ) :=
  match Start os i c w with
  | (some err, w1) => some (some err, w1)
  | (none, w1) => os.wait i c w1

/-- One call on a handle, with its outcome. -/
inductive Call where
  | stdoutPipe (i : Nat) (err : Option Err)
  | start (i : Nat) (err : Option Err)
  | wait (i : Nat) (err : Option Err)
  deriving DecidableEq, Repr

/-- Apply `f` to the element at position `n`, as `cmds[n].Field = v` does. -/
def modifyAt (f : ExecCmd → ExecCmd) : Nat → List ExecCmd → List ExecCmd
  | _, [] => []
  | 0, h :: t => f h :: t
  | n + 1, h :: t => h :: modifyAt f n t

/-! ## Pipeline -/

/-- What a call of `Pipeline` returns (`output`, `stderr`, `err`) together with what it
did: the handles as they stand on return, the calls made on them, in order, and the
state of the operating system on return. -/
structure PipelineRun (σ : Type) where
  output : String
  stderr : String
  err : Option Err
  cmds : List ExecCmd
  calls : List Call
  world : σ
  deriving DecidableEq, Repr

/-- One successful iteration of the wiring loop on handle `i`: `StdoutPipe` installs the
write end of a new pipe as `cmds[i].Stdout`, its read end becomes `cmds[i+1].Stdin`, and
then `cmds[i].Stderr = &stderr`. -/
def wireStep (i : Nat) (cmds : List ExecCmd) : List ExecCmd :=
  modifyAt (fun c => { c with Stderr := .stderrBuf }) i
    (modifyAt (fun c => { c with Stdin := .pipeReader i }) (i + 1)
      (modifyAt (fun c => { c with Stdout := .pipeWriter i }) i cmds))

/-- The wiring loop of `Pipeline` (cmd.go, lines 124-131), with `n` iterations left and
`i` the current index:
`if cmds[i+1].Stdin, err = cmd.StdoutPipe(); err != nil { return }; cmd.Stderr = &stderr`. -/
def wireLoop {σ : Type} (os : OS σ) :
    Nat → Nat → List ExecCmd → List Call → σ → Option Err × List ExecCmd × List Call × σ
  | 0, _, cmds, calls, w => (none, cmds, calls, w)
  | n + 1, i, cmds, calls, w =>
    match os.stdoutPipe i w with
    | (some err, w1) =>
      (some err, modifyAt (fun c => { c with Stdin := .unset }) (i + 1) cmds,
        calls ++ [.stdoutPipe i (some err)], w1)
    | (none, w1) =>
      wireLoop os n (i + 1) (wireStep i cmds) (calls ++ [.stdoutPipe i none]) w1

/-- The shape shared by the start loop (lines 137-141) and the wait loop (lines 144-148):
`for _, cmd := range cmds { if err := cmd.Op(); err != nil { return ..., err } }`.
`i` is the position of the head of the remaining handles.  The result is `none` when a
call never returns. -/
def eachCmd {σ : Type} (op : Nat → ExecCmd → σ → Option (Option Err × σ))
    (mk : Nat → Option Err → Call) :
    Nat → List ExecCmd → List Call → σ → Option (Option Err × List Call × σ)
  | _, [], calls, w => some (none, calls, w)
  | i, cmd :: rest, calls, w =>
    match op i cmd w with
    | none => none
    | some (some err, w1) => some (some err, calls ++ [mk i (some err)], w1)
    | some (none, w1) => eachCmd op mk (i + 1) rest (calls ++ [mk i none]) w1

/-- `func Pipeline(list ...*Cmd) (string, string, error)` (cmd.go, lines 103-152).
The result is `none` when `Pipeline` never returns, because a `Wait` never does. -/
def Pipeline {σ : Type} (os : OS σ) (list : List Cmd) (w : σ) : Option (PipelineRun σ) :=
  if list.length < 1 then
    some { output := "", stderr := "", err := none, cmds := [], calls := [], world := w }
  else
    let cmds := list.foldl (fun cmds cmd => cmds ++ [Command os cmd.Name cmd.Args w]) []
    let last := cmds.length - 1
    match wireLoop os last 0 cmds [] w with
    | (some err, cmds1, calls1, w1) =>
      some { output := "", stderr := "", err := some err,
             cmds := cmds1, calls := calls1, world := w1 }
    | (none, cmds1, calls1, w1) =>
      let cmds2 :=
        modifyAt (fun c => { c with Stdout := .outputBuf, Stderr := .stderrBuf }) last cmds1
      match eachCmd (fun i c w => some (Start os i c w)) Call.start 0 cmds2 calls1 w1 with
      | none => none
      | some (some err, calls2, w2) =>
        some { output := os.outputString w2, stderr := os.stderrString w2, err := some err,
               cmds := cmds2, calls := calls2, world := w2 }
      | some (none, calls2, w2) =>
        match eachCmd os.wait Call.wait 0 cmds2 calls2 w2 with
        | none => none
        | some (some err, calls3, w3) =>
          some { output := os.outputString w3, stderr := os.stderrString w3, err := some err,
                 cmds := cmds2, calls := calls3, world := w3 }
        | some (none, calls3, w3) =>
          some { output := os.outputString w3, stderr := os.stderrString w3, err := none,
                 cmds := cmds2, calls := calls3, world := w3 }

/-! ## Copy -/

/-- `func Copy(data string) error` (cmd.go, lines 28-41), with the package variable
`isWindows` as a parameter.  Returns `err` and, to show what was done, the run of
`Pipeline` it comes from; `none` when `Pipeline` never returns. -/
def Copy {σ : Type} (split : Tokenizer) (isWindows : Bool) (os : OS σ) (data : String) (w : σ) :
    Except Panic (Option (Option Err × PipelineRun σ)) :=
  let cpCmd := if isWindows then "clip" else "pbcopy"
  match New split "echo" with
  | .error p => .error p
  | .ok e =>
    let echo := WithArgs e [data]
    match New split cpCmd with
    | .error p => .error p
    | .ok copy =>
      match Pipeline os [echo, copy] w with
      | none => .ok none
      | some r => .ok (some (r.err, r))

/-! ## Running a single command -/

/-- How `Run` ends: the process image was replaced and the call never returns; the
child never ends and the call never returns; or the call returns an error value (`none`
for `nil`) in a new state. -/
inductive RunResult (σ : Type) where
  | replaced
  | blocked
  | returned (err : Option Err) (w : σ)
  deriving DecidableEq, Repr

/-- `func (cmd *Cmd) Spawn() error` (cmd.go, lines 78-85). -/
def Spawn {σ : Type} (os : OS σ) (cmd : Cmd) (w : σ) : RunResult σ :=
  let c := Command os cmd.Name cmd.Args w
  let c := { c with Stdin := .osStdin, Stdout := .osStdout, Stderr := .osStderr }
  match ExecRun os 0 c w with
  | none => .blocked
  | some (err, w1) => .returned err w1

/-- `func (cmd *Cmd) Exec() error` (cmd.go, lines 89-99). -/
def Exec {σ : Type} (os : OS σ) (cmd : Cmd) (w : σ) : RunResult σ :=
  match os.lookPath cmd.Name w with
  | .error _ => .returned (some ("command not found: " ++ cmd.Name)) w
  | .ok binary =>
    let args := [binary] ++ cmd.Args
    match os.exec binary args (os.environ w) w with
    | none => .replaced
    | some err => .returned (some err) w

/-- `func (cmd *Cmd) Run() error` (cmd.go, lines 70-75), with the package variable
`isWindows` as a parameter. -/
def Run {σ : Type} (os : OS σ) (isWindows : Bool) (cmd : Cmd) (w : σ) : RunResult σ :=
  if isWindows then Spawn os cmd w else Exec os cmd w

/-! ## Concrete operating systems, to evaluate the definitions -/

/-- How `demoOS` records where the stdout of a created process goes. -/
def stdoutMark : Endpoint → String
  | .outputBuf => ">output"
  | .pipeWriter _ => ">pipe"
  | _ => ""

/-- A small operating system whose state is the list of the processes created so far,
each recorded by its path and where its stdout goes.  A non-empty name without a slash
is bare; the search path resolves every name but `nosuch` to `/bin/<name>`; `/bin/false`
exits with status 1 and `/bin/yes` never ends; the final-output buffer shows the
processes created, the stderr buffer is empty. -/
def demoOS : OS (List String) where
  baseIsName := fun name => !(name.data.contains '/') && name != ""
  lookPath := fun name _ =>
    if name = "nosuch" then .error "exec: \"nosuch\": executable file not found in $PATH"
    else .ok ("/bin/" ++ name)
  stdoutPipe := fun _ w => (none, w)
  closeDescriptors := fun _ w => w
  startProcess := fun _ c w => (none, w ++ [c.Path ++ stdoutMark c.Stdout])
  wait := fun _ c w =>
    if c.Path = "/bin/yes" then none
    else if c.Path = "/bin/false" then some (some "exit status 1", w)
    else some (none, w)
  outputString := fun w => Join w ","
  stderrString := fun _ => ""
  environ := fun _ => []
  exec := fun _ _ _ _ => none

/-- The operating system `demoOS` once the process has run out of file descriptors:
creating a pipe fails. -/
def noPipeOS : OS (List String) :=
  { demoOS with stdoutPipe := fun _ w => (some "pipe: too many open files", w) }

/-- The operating system `demoOS` with the lookup error as Windows words it. -/
def windowsOS : OS (List String) :=
  { demoOS with
    lookPath := fun name _ =>
      if name = "nosuch" then .error "exec: \"nosuch\": executable file not found in %PATH%"
      else .ok ("C:/bin/" ++ name ++ ".exe") }

/-! ## Vocabulary of the statements -/

/-- The calls `mk i none, ..., mk (i+n-1) none`: `n` successful calls in index order. -/
def okCalls (mk : Nat → Option Err → Call) (i n : Nat) : List Call :=
  (List.range' i n).map (fun j => mk j none)

/-- The outcome recorded in a call. -/
def Call.err : Call → Option Err
  | .stdoutPipe _ err => err
  | .start _ err => err
  | .wait _ err => err

/-- What the operating system answers when the call `c` is made on the handles `cmds`
in state `w`: `none` when the call never returns (or names no handle), otherwise the
error and the new state. -/
def perform {σ : Type} (os : OS σ) (cmds : List ExecCmd) (c : Call) (w : σ) :
    Option (Option Err × σ) :=
  match c with
  | .stdoutPipe i _ => some (os.stdoutPipe i w)
  | .start i _ =>
    match cmds[i]? with
    | some h => some (Start os i h w)
    | none => none
  | .wait i _ =>
    match cmds[i]? with
    | some h => os.wait i h w
    | none => none

/-- The state reached when the calls `calls` are made in order on the handles `cmds`
from state `w` and the operating system answers each of them with the recorded
outcome; `none` when some answer differs or some call never returns. -/
def answers {σ : Type} (os : OS σ) (cmds : List ExecCmd) : List Call → σ → Option σ
  | [], w => some w
  | c :: cs, w =>
    match perform os cmds c w with
    | none => none
    | some (e, w1) => if e = c.err then answers os cmds cs w1 else none

/-- Handle `j`, built from descriptor `d`, after the first `k` iterations of the wiring
loop. -/
def wiredHandle {σ : Type} (os : OS σ) (w : σ) (k j : Nat) (d : Cmd) : ExecCmd :=
  { Command os d.Name d.Args w with
    Stdin := if 0 < j ∧ j ≤ k then .pipeReader (j - 1) else .unset,
    Stdout := if j < k then .pipeWriter j else .unset,
    Stderr := if j < k then .stderrBuf else .unset }

/-- Handle `j` of `n`, built from descriptor `d`, once the wiring is complete: its stdin
is the pipe reading the stdout of handle `j-1` (unset for handle 0), its stdout is the
write end of its own pipe, or the final-output buffer for the last handle, and its
stderr is the shared stderr buffer. -/
def finalHandle {σ : Type} (os : OS σ) (w : σ) (n j : Nat) (d : Cmd) : ExecCmd :=
  { Command os d.Name d.Args w with
    Stdin := if j = 0 then .unset else .pipeReader (j - 1),
    Stdout := if j + 1 = n then .outputBuf else .pipeWriter j,
    Stderr := .stderrBuf }

/-- The handles of the descriptors `list`, fully wired. -/
def wiredHandles {σ : Type} (os : OS σ) (list : List Cmd) (w : σ) : List ExecCmd :=
  list.mapIdx (fun j d => finalHandle os w list.length j d)

/-- The handles `cmds` are those that `exec.Command` makes of the descriptors `list`,
in order: same number, and for each the path, argument vector and lookup error. -/
def HandlesOf {σ : Type} (os : OS σ) (w : σ) (list : List Cmd) (cmds : List ExecCmd) : Prop :=
  cmds.length = list.length ∧
  ∀ (i : Nat) (d : Cmd), list[i]? = some d →
    ∃ h : ExecCmd, cmds[i]? = some h ∧ h.Path = (Command os d.Name d.Args w).Path ∧
      h.Args = d.Name :: d.Args ∧ h.Err = (Command os d.Name d.Args w).Err

/-- How a run of `Pipeline` ends once the wiring is complete: the start of handle `k`
fails; or all handles start and the wait on handle `k` fails; or every start and every
wait succeeds. -/
inductive Ending where
  | startFails (k : Nat) (e : Err)
  | waitFails (k : Nat) (e : Err)
  | allSucceed
  deriving DecidableEq, Repr

/-- The calls made after the wiring in a run on `n` handles with the given ending. -/
def Ending.calls (n : Nat) : Ending → List Call
  | .startFails k e => okCalls Call.start 0 k ++ [Call.start k (some e)]
  | .waitFails k e =>
    okCalls Call.start 0 n ++ (okCalls Call.wait 0 k ++ [Call.wait k (some e)])
  | .allSucceed => okCalls Call.start 0 n ++ okCalls Call.wait 0 n

/-- The error `Pipeline` returns in a run with the given ending. -/
def Ending.err : Ending → Option Err
  | .startFails _ e => some e
  | .waitFails _ e => some e
  | .allSucceed => none

/-- A result of `New` is an abort, or a descriptor with a non-empty `Name`. -/
def AbortsOrNamed (r : Except Panic Cmd) : Prop :=
  match r with
  | .error _ => True
  | .ok c => c.Name ≠ ""

/-! ## Lemmas on the descriptor operations -/

theorem foldl_append_singleton {α : Type} (xs acc : List α) :
    xs.foldl (fun args arg => args ++ [arg]) acc = acc ++ xs := by
  induction xs generalizing acc with
  | nil => simp
  | cons x xs ih => simp [ih]

theorem WithArgs_eq (cmd : Cmd) (xs : List String) :
    WithArgs cmd xs = { Name := cmd.Name, Args := cmd.Args ++ xs } := by
  unfold WithArgs
  induction xs generalizing cmd with
  | nil => simp
  | cons x xs ih => simp [ih]

theorem New_of_tokens (split : Tokenizer) (cmd t0 : String) (ts : List String)
    (h : split cmd = .ok (t0 :: ts)) : New split cmd = .ok { Name := t0, Args := ts } := by
  simp [New, h, foldl_append_singleton]

theorem intercalate_go_eq (sep : String) (xs : List String) (acc : String) :
    String.intercalate.go acc sep xs = xs.foldl (fun b s => b ++ sep ++ s) acc := by
  induction xs generalizing acc with
  | nil => simp [String.intercalate.go]
  | cons x xs ih => simp [String.intercalate.go, ih]

theorem Join_eq_intercalate (elems : List String) (sep : String) :
    Join elems sep = sep.intercalate elems := by
  cases elems with
  | nil => simp [Join, String.intercalate]
  | cons e rest =>
    cases rest with
    | nil => simp [Join, String.intercalate, String.intercalate.go]
    | cons e2 rest2 => simp [Join, String.intercalate, intercalate_go_eq]

/-! ## Lemmas on the loops of `Pipeline` -/

theorem foldl_append_map {α β : Type} (f : α → β) (xs : List α) (acc : List β) :
    xs.foldl (fun ys x => ys ++ [f x]) acc = acc ++ xs.map f := by
  induction xs generalizing acc with
  | nil => simp
  | cons x xs ih => simp [ih]

theorem length_modifyAt (f : ExecCmd → ExecCmd) (n : Nat) (l : List ExecCmd) :
    (modifyAt f n l).length = l.length := by
  induction l generalizing n with
  | nil => simp [modifyAt]
  | cons h t ih =>
    cases n with
    | zero => simp [modifyAt]
    | succ n => simp [modifyAt, ih]

theorem getElem?_modifyAt (f : ExecCmd → ExecCmd) (n m : Nat) (l : List ExecCmd) :
    (modifyAt f n l)[m]? = if m = n then (l[m]?).map f else l[m]? := by
  induction l generalizing n m with
  | nil => simp [modifyAt]
  | cons h t ih =>
    cases n with
    | zero =>
      cases m with
      | zero => simp [modifyAt]
      | succ m => simp [modifyAt]
    | succ n =>
      cases m with
      | zero => simp [modifyAt]
      | succ m => simp [modifyAt, ih]

theorem okCalls_zero (mk : Nat → Option Err → Call) (i : Nat) : okCalls mk i 0 = [] := rfl

theorem okCalls_succ (mk : Nat → Option Err → Call) (i n : Nat) :
    okCalls mk i (n + 1) = mk i none :: okCalls mk (i + 1) n := by
  simp [okCalls, List.range'_succ]

theorem mem_okCalls (mk : Nat → Option Err → Call) (i n : Nat) (c : Call) :
    c ∈ okCalls mk i n ↔ ∃ j, i ≤ j ∧ j < i + n ∧ c = mk j none := by
  simp only [okCalls, List.mem_map, List.mem_range'_1]
  constructor
  · rintro ⟨j, ⟨h1, h2⟩, rfl⟩
    exact ⟨j, h1, h2, rfl⟩
  · rintro ⟨j, h1, h2, rfl⟩
    exact ⟨j, ⟨h1, h2⟩, rfl⟩

theorem answers_nil {σ : Type} (os : OS σ) (cmds : List ExecCmd) (w : σ) :
    answers os cmds [] w = some w := rfl

theorem answers_cons {σ : Type} (os : OS σ) (cmds : List ExecCmd) (c : Call)
    (cs : List Call) (w : σ) :
    answers os cmds (c :: cs) w =
      match perform os cmds c w with
      | none => none
      | some (e, w1) => if e = c.err then answers os cmds cs w1 else none := rfl

theorem perform_pipe {σ : Type} (os : OS σ) (cmds : List ExecCmd) (i : Nat) (e : Option Err)
    (w : σ) : perform os cmds (Call.stdoutPipe i e) w = some (os.stdoutPipe i w) := rfl

theorem perform_start {σ : Type} (os : OS σ) (cmds : List ExecCmd) (i : Nat) (e : Option Err)
    (w : σ) :
    perform os cmds (Call.start i e) w =
      match cmds[i]? with
      | some h => (fun j c v => some (Start os j c v)) i h w
      | none => none := rfl

theorem perform_wait {σ : Type} (os : OS σ) (cmds : List ExecCmd) (i : Nat) (e : Option Err)
    (w : σ) :
    perform os cmds (Call.wait i e) w =
      match cmds[i]? with
      | some h => os.wait i h w
      | none => none := rfl

/-- Answering a sequence of calls is answering its first part and then the rest. -/
theorem answers_append {σ : Type} (os : OS σ) (cmds : List ExecCmd) (a b : List Call) (w : σ) :
    answers os cmds (a ++ b) w = (answers os cmds a w).bind (answers os cmds b) := by
  induction a generalizing w with
  | nil => simp [answers_nil]
  | cons c cs ih =>
    rw [List.cons_append, answers_cons, answers_cons]
    cases hp : perform os cmds c w with
    | none => simp
    | some r =>
      obtain ⟨e, w1⟩ := r
      by_cases he : e = c.err
      · simp [he, ih]
      · simp [he]

theorem answers_append_some {σ : Type} (os : OS σ) (cmds : List ExecCmd) (a b : List Call)
    (w w2 : σ) (h : answers os cmds (a ++ b) w = some w2) :
    ∃ w1, answers os cmds a w = some w1 ∧ answers os cmds b w1 = some w2 := by
  rw [answers_append] at h
  cases ha : answers os cmds a w with
  | none => simp [ha] at h
  | some w1 => exact ⟨w1, rfl, by simpa [ha] using h⟩

/-- The calls on pipes do not depend on the handles. -/
theorem answers_pipes_handles {σ : Type} (os : OS σ) (cmds cmds1 : List ExecCmd)
    (calls : List Call) (hp : ∀ c ∈ calls, ∃ i e, c = Call.stdoutPipe i e) (w : σ) :
    answers os cmds calls w = answers os cmds1 calls w := by
  induction calls generalizing w with
  | nil => rfl
  | cons c cs ih =>
    obtain ⟨i, e, rfl⟩ := hp c (by simp)
    rw [answers_cons, answers_cons, perform_pipe, perform_pipe]
    cases hop : os.stdoutPipe i w with
    | mk r w2 =>
      by_cases he : r = (Call.stdoutPipe i e).err
      · simp only [he, if_true]
        exact ih (fun c hc => hp c (by simp [hc])) _
      · simp [he]

/-- When the operating system lets `n` pipes be created from index `i` on, the wiring
loop makes exactly these calls and ends without error in the state they lead to. -/
theorem wireLoop_answers_ok {σ : Type} (os : OS σ) (hd : List ExecCmd) (n i : Nat)
    (cmds : List ExecCmd) (calls : List Call) (w w1 : σ)
    (h : answers os hd (okCalls Call.stdoutPipe i n) w = some w1) :
    ∃ c1, wireLoop os n i cmds calls w
      = (none, c1, calls ++ okCalls Call.stdoutPipe i n, w1) := by
  induction n generalizing i cmds calls w with
  | zero =>
    simp only [okCalls_zero, answers_nil, Option.some.injEq] at h
    subst h
    exact ⟨cmds, by simp [wireLoop, okCalls_zero]⟩
  | succ n ih =>
    rw [okCalls_succ, answers_cons, perform_pipe] at h
    unfold wireLoop
    cases hop : os.stdoutPipe i w with
    | mk r w2 =>
      rw [hop] at h
      cases r with
      | some e => simp [Call.err] at h
      | none =>
        simp only [Call.err, if_true] at h
        obtain ⟨c1, hc1⟩ := ih (i + 1) (wireStep i cmds) (calls ++ [Call.stdoutPipe i none]) w2 h
        exact ⟨c1, by simp [hc1, okCalls_succ]⟩

/-- When the operating system lets `k` pipes be created and fails the next one, the
wiring loop makes exactly these calls and ends with that error. -/
theorem wireLoop_answers_fail {σ : Type} (os : OS σ) (hd : List ExecCmd) (n i k : Nat)
    (e : Err) (cmds : List ExecCmd) (calls : List Call) (w w1 : σ) (hk : k < n)
    (h : answers os hd (okCalls Call.stdoutPipe i k ++ [Call.stdoutPipe (i + k) (some e)]) w
      = some w1) :
    ∃ c1, wireLoop os n i cmds calls w
      = (some e, c1,
          calls ++ (okCalls Call.stdoutPipe i k ++ [Call.stdoutPipe (i + k) (some e)]), w1) := by
  induction n generalizing i k cmds calls w with
  | zero => omega
  | succ n ih =>
    unfold wireLoop
    cases k with
    | zero =>
      rw [okCalls_zero, List.nil_append, Nat.add_zero, answers_cons, perform_pipe] at h
      cases hop : os.stdoutPipe i w with
      | mk r w2 =>
        rw [hop] at h
        cases r with
        | none => simp [Call.err] at h
        | some e2 =>
          by_cases he : e2 = e
          · subst he
            simp only [Call.err, if_true, answers_nil, Option.some.injEq] at h
            subst h
            exact ⟨modifyAt (fun c => { c with Stdin := .unset }) (i + 1) cmds,
              by simp [okCalls_zero]⟩
          · simp [Call.err, he] at h
    | succ k =>
      rw [okCalls_succ, List.cons_append, answers_cons, perform_pipe] at h
      cases hop : os.stdoutPipe i w with
      | mk r w2 =>
        rw [hop] at h
        cases r with
        | some e2 => simp [Call.err] at h
        | none =>
          simp only [Call.err, if_true] at h
          have h2 : answers os hd
              (okCalls Call.stdoutPipe (i + 1) k ++ [Call.stdoutPipe (i + 1 + k) (some e)]) w2
              = some w1 := by
            rw [show i + 1 + k = i + (k + 1) by omega]
            exact h
          obtain ⟨c1, hc1⟩ := ih (i + 1) k (wireStep i cmds)
            (calls ++ [Call.stdoutPipe i none]) w2 (by omega) h2
          refine ⟨c1, ?_⟩
          simp only [hc1, okCalls_succ]
          simp [Nat.add_assoc, Nat.add_comm 1 k]

/-- When the operating system answers one successful call per remaining handle, the loop
`eachCmd` makes exactly these calls and ends without error in the state they lead to.
`hs` are the handles from position `i` on. -/
theorem eachCmd_answers_ok {σ : Type} (os : OS σ)
    (op : Nat → ExecCmd → σ → Option (Option Err × σ)) (mk : Nat → Option Err → Call)
    (cmds : List ExecCmd)
    (hperf : ∀ j x w, perform os cmds (mk j x) w =
      match cmds[j]? with
      | some h => op j h w
      | none => none)
    (herr : ∀ j x, (mk j x).err = x)
    (hs : List ExecCmd) (i : Nat) (calls : List Call) (w w1 : σ)
    (hsuf : ∀ j, hs[j]? = cmds[i + j]?)
    (h : answers os cmds (okCalls mk i hs.length) w = some w1) :
    eachCmd op mk i hs calls w = some (none, calls ++ okCalls mk i hs.length, w1) := by
  induction hs generalizing i calls w with
  | nil =>
    simp only [List.length_nil, okCalls_zero, answers_nil, Option.some.injEq] at h
    subst h
    simp [eachCmd, okCalls_zero]
  | cons c rest ih =>
    have hc : cmds[i]? = some c := by
      have := hsuf 0
      simpa using this.symm
    have hrest : ∀ j, rest[j]? = cmds[i + 1 + j]? := by
      intro j
      have := hsuf (j + 1)
      rw [show i + (j + 1) = i + 1 + j by omega] at this
      simpa using this
    rw [List.length_cons, okCalls_succ, answers_cons, hperf, hc] at h
    rw [List.length_cons, okCalls_succ]
    unfold eachCmd
    cases hop : op i c w with
    | none => simp [hop] at h
    | some r =>
      obtain ⟨e, w2⟩ := r
      cases e with
      | some e => simp [hop, herr] at h
      | none =>
        simp only [hop, herr, if_true] at h
        simp [ih (i + 1) (calls ++ [mk i none]) w2 hrest h]

/-- When the operating system answers `k` successful calls and fails the next one, the
loop `eachCmd` makes exactly these calls and ends with that error. -/
theorem eachCmd_answers_fail {σ : Type} (os : OS σ)
    (op : Nat → ExecCmd → σ → Option (Option Err × σ)) (mk : Nat → Option Err → Call)
    (cmds : List ExecCmd)
    (hperf : ∀ j x w, perform os cmds (mk j x) w =
      match cmds[j]? with
      | some h => op j h w
      | none => none)
    (herr : ∀ j x, (mk j x).err = x)
    (hs : List ExecCmd) (i k : Nat) (e : Err) (calls : List Call) (w w1 : σ)
    (hsuf : ∀ j, hs[j]? = cmds[i + j]?)
    (h : answers os cmds (okCalls mk i k ++ [mk (i + k) (some e)]) w = some w1) :
    eachCmd op mk i hs calls w
      = some (some e, calls ++ (okCalls mk i k ++ [mk (i + k) (some e)]), w1) := by
  induction hs generalizing i k calls w with
  | nil =>
    have hc : cmds[i]? = none := by
      have := hsuf 0
      simpa using this.symm
    cases k with
    | zero =>
      rw [okCalls_zero, List.nil_append, Nat.add_zero, answers_cons, hperf, hc] at h
      simp at h
    | succ k =>
      rw [okCalls_succ, List.cons_append, answers_cons, hperf, hc] at h
      simp at h
  | cons c rest ih =>
    have hc : cmds[i]? = some c := by
      have := hsuf 0
      simpa using this.symm
    have hrest : ∀ j, rest[j]? = cmds[i + 1 + j]? := by
      intro j
      have := hsuf (j + 1)
      rw [show i + (j + 1) = i + 1 + j by omega] at this
      simpa using this
    unfold eachCmd
    cases k with
    | zero =>
      rw [okCalls_zero, List.nil_append, Nat.add_zero, answers_cons, hperf, hc] at h
      cases hop : op i c w with
      | none => simp [hop] at h
      | some r =>
        obtain ⟨e2, w2⟩ := r
        cases e2 with
        | none => simp [hop, herr] at h
        | some e2 =>
          by_cases he : e2 = e
          · subst he
            simp only [hop, herr, if_true, answers_nil, Option.some.injEq] at h
            subst h
            simp [okCalls_zero]
          · simp [hop, herr, he] at h
    | succ k =>
      rw [okCalls_succ, List.cons_append, answers_cons, hperf, hc] at h
      cases hop : op i c w with
      | none => simp [hop] at h
      | some r =>
        obtain ⟨e2, w2⟩ := r
        cases e2 with
        | some e2 => simp [hop, herr] at h
        | none =>
          simp only [hop, herr, if_true] at h
          have h2 : answers os cmds (okCalls mk (i + 1) k ++ [mk (i + 1 + k) (some e)]) w2
              = some w1 := by
            rw [show i + 1 + k = i + (k + 1) by omega]
            exact h
          simp only [ih (i + 1) k (calls ++ [mk i none]) w2 hrest h2, okCalls_succ]
          simp [Nat.add_assoc, Nat.add_comm 1 k]

/-- When the operating system answers `k` successful calls and the next call never
returns, the loop `eachCmd` never returns. -/
theorem eachCmd_blocks {σ : Type} (os : OS σ)
    (op : Nat → ExecCmd → σ → Option (Option Err × σ)) (mk : Nat → Option Err → Call)
    (cmds : List ExecCmd)
    (hperf : ∀ j x w, perform os cmds (mk j x) w =
      match cmds[j]? with
      | some h => op j h w
      | none => none)
    (herr : ∀ j x, (mk j x).err = x)
    (hs : List ExecCmd) (i k : Nat) (c : ExecCmd) (calls : List Call) (w w1 : σ)
    (hsuf : ∀ j, hs[j]? = cmds[i + j]?)
    (h : answers os cmds (okCalls mk i k) w = some w1)
    (hc : cmds[i + k]? = some c) (hblock : op (i + k) c w1 = none) :
    eachCmd op mk i hs calls w = none := by
  induction hs generalizing i k calls w with
  | nil =>
    have := hsuf k
    rw [hc] at this
    simp at this
  | cons c0 rest ih =>
    have hc0 : cmds[i]? = some c0 := by
      have := hsuf 0
      simpa using this.symm
    have hrest : ∀ j, rest[j]? = cmds[i + 1 + j]? := by
      intro j
      have := hsuf (j + 1)
      rw [show i + (j + 1) = i + 1 + j by omega] at this
      simpa using this
    unfold eachCmd
    cases k with
    | zero =>
      simp only [okCalls_zero, answers_nil, Option.some.injEq] at h
      subst h
      rw [Nat.add_zero, hc0] at hc
      cases hc
      rw [Nat.add_zero] at hblock
      simp [hblock]
    | succ k =>
      rw [okCalls_succ, answers_cons, hperf, hc0] at h
      cases hop : op i c0 w with
      | none => rfl
      | some r =>
        obtain ⟨e2, w2⟩ := r
        cases e2 with
        | some e2 => simp [hop, herr] at h
        | none =>
          simp only [hop, herr, if_true] at h
          exact ih (i + 1) k (calls ++ [mk i none]) w2 hrest h
            (by rw [show i + 1 + k = i + (k + 1) by omega]; exact hc)
            (by rw [show i + 1 + k = i + (k + 1) by omega]; exact hblock)

theorem HandlesOf_modifyAt {σ : Type} (os : OS σ) (w : σ) (list : List Cmd)
    (cmds : List ExecCmd) (f : ExecCmd → ExecCmd) (n : Nat)
    (hf : ∀ c, (f c).Path = c.Path ∧ (f c).Args = c.Args ∧ (f c).Err = c.Err)
    (h : HandlesOf os w list cmds) :
    HandlesOf os w list (modifyAt f n cmds) := by
  refine ⟨by rw [length_modifyAt]; exact h.1, ?_⟩
  intro i d hd
  obtain ⟨c, hc, hp, ha, he⟩ := h.2 i d hd
  rw [getElem?_modifyAt]
  by_cases hin : i = n
  · subst hin
    refine ⟨f c, by simp [hc], ?_, ?_, ?_⟩
    · rw [(hf c).1, hp]
    · rw [(hf c).2.1, ha]
    · rw [(hf c).2.2, he]
  · exact ⟨c, by simp [hin, hc], hp, ha, he⟩

theorem HandlesOf_wireStep {σ : Type} (os : OS σ) (w : σ) (list : List Cmd)
    (cmds : List ExecCmd) (i : Nat) (h : HandlesOf os w list cmds) :
    HandlesOf os w list (wireStep i cmds) := by
  unfold wireStep
  refine HandlesOf_modifyAt os w _ _ _ _ ?_ (HandlesOf_modifyAt os w _ _ _ _ ?_
    (HandlesOf_modifyAt os w _ _ _ _ ?_ h)) <;> intro c <;> exact ⟨rfl, rfl, rfl⟩

theorem HandlesOf_wireLoop {σ : Type} (os : OS σ) (w0 : σ) (list : List Cmd) (n i : Nat)
    (cmds : List ExecCmd) (calls : List Call) (w : σ) (h : HandlesOf os w0 list cmds) :
    HandlesOf os w0 list (wireLoop os n i cmds calls w).2.1 := by
  induction n generalizing i cmds calls w with
  | zero => simpa [wireLoop] using h
  | succ n ih =>
    unfold wireLoop
    cases hop : os.stdoutPipe i w with
    | mk r w1 =>
      cases r with
      | some e =>
        refine HandlesOf_modifyAt os w0 _ _ _ _ ?_ h
        intro c
        exact ⟨rfl, rfl, rfl⟩
      | none => exact ih _ _ _ _ (HandlesOf_wireStep os w0 list cmds i h)

theorem wireStep_wired {σ : Type} (os : OS σ) (w : σ) (list : List Cmd)
    (cmds : List ExecCmd) (i : Nat)
    (h : ∀ (j : Nat) (d : Cmd), list[j]? = some d → cmds[j]? = some (wiredHandle os w i j d)) :
    ∀ (j : Nat) (d : Cmd), list[j]? = some d →
      (wireStep i cmds)[j]? = some (wiredHandle os w (i + 1) j d) := by
  intro j d hd
  have hj := h j d hd
  unfold wireStep
  simp only [getElem?_modifyAt, hj]
  by_cases h1 : j = i
  · subst h1
    simp [wiredHandle]
  · by_cases h2 : j = i + 1
    · subst h2
      simp [wiredHandle]
    · have e1 : (j < i + 1) = (j < i) := by
        apply propext; constructor <;> intro h3 <;> omega
      have e2 : (0 < j ∧ j ≤ i + 1) = (0 < j ∧ j ≤ i) := by
        apply propext; constructor <;> intro h3 <;> omega
      simp [wiredHandle, h1, h2, e1, e2]

theorem wireLoop_wired {σ : Type} (os : OS σ) (w0 : σ) (list : List Cmd) (n i : Nat)
    (cmds : List ExecCmd) (calls : List Call) (w : σ)
    (h : ∀ (j : Nat) (d : Cmd), list[j]? = some d →
      cmds[j]? = some (wiredHandle os w0 i j d))
    (hok : (wireLoop os n i cmds calls w).1 = none) :
    ∀ (j : Nat) (d : Cmd), list[j]? = some d →
      (wireLoop os n i cmds calls w).2.1[j]? = some (wiredHandle os w0 (i + n) j d) := by
  induction n generalizing i cmds calls w with
  | zero => simpa [wireLoop] using h
  | succ n ih =>
    unfold wireLoop at hok ⊢
    cases hop : os.stdoutPipe i w with
    | mk r w1 =>
      cases r with
      | some e => simp [hop] at hok
      | none =>
        simp only [hop] at hok ⊢
        have := ih (i + 1) (wireStep i cmds) (calls ++ [Call.stdoutPipe i none]) w1
          (wireStep_wired os w0 list cmds i h) hok
        simpa [Nat.add_assoc, Nat.add_comm 1 n] using this

theorem initial_wired {σ : Type} (os : OS σ) (w : σ) (list : List Cmd) :
    ∀ (j : Nat) (d : Cmd), list[j]? = some d →
      (list.map (fun cmd => Command os cmd.Name cmd.Args w))[j]?
        = some (wiredHandle os w 0 j d) := by
  intro j d hd
  have h0 : ¬ (0 < j ∧ j = 0) := by omega
  have hC : (Command os d.Name d.Args w).Stdin = .unset ∧
      (Command os d.Name d.Args w).Stdout = .unset ∧
      (Command os d.Name d.Args w).Stderr = .unset := by
    unfold Command
    split
    · split <;> exact ⟨rfl, rfl, rfl⟩
    · exact ⟨rfl, rfl, rfl⟩
  obtain ⟨h1, h2, h3⟩ := hC
  simp only [List.getElem?_map, hd, Option.map_some', wiredHandle, Nat.not_lt_zero, if_false,
    Nat.le_zero_eq, h0]
  congr 1
  cases hcmd : Command os d.Name d.Args w
  rw [hcmd] at h1 h2 h3
  simp only at h1 h2 h3
  simp [h1, h2, h3]

theorem Command_args {σ : Type} (os : OS σ) (name : String) (arg : List String) (w : σ) :
    (Command os name arg w).Args = name :: arg := by
  unfold Command
  split
  · split <;> rfl
  · rfl

theorem initial_HandlesOf {σ : Type} (os : OS σ) (w : σ) (list : List Cmd) :
    HandlesOf os w list (list.map (fun cmd => Command os cmd.Name cmd.Args w)) := by
  refine ⟨by simp, ?_⟩
  intro i d hd
  exact ⟨Command os d.Name d.Args w, by simp [hd], rfl, Command_args os _ _ w, rfl⟩

theorem final_wired {σ : Type} (os : OS σ) (w : σ) (list : List Cmd) (cmds : List ExecCmd)
    (h : ∀ (j : Nat) (d : Cmd), list[j]? = some d →
      cmds[j]? = some (wiredHandle os w (list.length - 1) j d)) :
    ∀ (j : Nat) (d : Cmd), list[j]? = some d →
      (modifyAt (fun c => { c with Stdout := .outputBuf, Stderr := .stderrBuf })
        (list.length - 1) cmds)[j]? = some (finalHandle os w list.length j d) := by
  intro j d hd
  have hj := h j d hd
  have hlt : j < list.length := by
    rcases Nat.lt_or_ge j list.length with h1 | h1
    · exact h1
    · simp [List.getElem?_eq_none h1] at hd
  simp only [getElem?_modifyAt, hj, wiredHandle, finalHandle, Option.map_some']
  by_cases h1 : j = list.length - 1
  · have h2 : j + 1 = list.length := by omega
    rw [if_pos h1, if_pos h2]
    by_cases h0 : j = 0
    · have h3 : ¬ (0 < j ∧ j ≤ list.length - 1) := by omega
      rw [if_pos h0, if_neg h3]
    · have h3 : 0 < j ∧ j ≤ list.length - 1 := by omega
      rw [if_neg h0, if_pos h3]
  · have h2 : ¬ (j + 1 = list.length) := by omega
    have h3 : j < list.length - 1 := by omega
    rw [if_neg h1, if_neg h2, if_pos h3, if_pos h3]
    by_cases h0 : j = 0
    · have h4 : ¬ (0 < j ∧ j ≤ list.length - 1) := by omega
      rw [if_pos h0, if_neg h4]
    · have h4 : 0 < j ∧ j ≤ list.length - 1 := by omega
      rw [if_neg h0, if_pos h4]

theorem getElem?_wiredHandles {σ : Type} (os : OS σ) (list : List Cmd) (w : σ) (j : Nat) :
    (wiredHandles os list w)[j]? = (list[j]?).map (finalHandle os w list.length j) := by
  simp [wiredHandles]

/-- Handles that agree position by position with the wired handles are the wired
handles. -/
theorem eq_wiredHandles {σ : Type} (os : OS σ) (list : List Cmd) (w : σ)
    (cmds : List ExecCmd) (hlen : cmds.length = list.length)
    (h : ∀ (j : Nat) (d : Cmd), list[j]? = some d →
      cmds[j]? = some (finalHandle os w list.length j d)) :
    cmds = wiredHandles os list w := by
  apply List.ext_getElem?
  intro j
  rw [getElem?_wiredHandles]
  cases hd : list[j]? with
  | some d => simpa using h j d hd
  | none =>
    have hj : list.length ≤ j := by
      rcases Nat.lt_or_ge j list.length with h1 | h1
      · simp [List.getElem?_eq_getElem h1] at hd
      · exact h1
    simp [List.getElem?_eq_none (hlen ▸ hj)]

/-! ## Lemmas on `Pipeline` -/

/-- On a non-empty list `Pipeline` is its part after the empty-list test. -/
theorem Pipeline_nonempty {σ : Type} (os : OS σ) (list : List Cmd) (w : σ) (hne : list ≠ []) :
    Pipeline os list w =
      match wireLoop os (list.length - 1) 0
          (list.map (fun cmd => Command os cmd.Name cmd.Args w)) [] w with
      | (some err, cmds1, calls1, w1) =>
        some { output := "", stderr := "", err := some err,
               cmds := cmds1, calls := calls1, world := w1 }
      | (none, cmds1, calls1, w1) =>
        match eachCmd (fun i c w => some (Start os i c w)) Call.start 0
            (modifyAt (fun c => { c with Stdout := .outputBuf, Stderr := .stderrBuf })
              (list.length - 1) cmds1) calls1 w1 with
        | none => none
        | some (some err, calls2, w2) =>
          some { output := os.outputString w2, stderr := os.stderrString w2, err := some err,
                 cmds := modifyAt (fun c => { c with Stdout := .outputBuf, Stderr := .stderrBuf })
                   (list.length - 1) cmds1,
                 calls := calls2, world := w2 }
        | some (none, calls2, w2) =>
          match eachCmd os.wait Call.wait 0
              (modifyAt (fun c => { c with Stdout := .outputBuf, Stderr := .stderrBuf })
                (list.length - 1) cmds1) calls2 w2 with
          | none => none
          | some (some err, calls3, w3) =>
            some { output := os.outputString w3, stderr := os.stderrString w3,
                   err := some err,
                   cmds := modifyAt
                     (fun c => { c with Stdout := .outputBuf, Stderr := .stderrBuf })
                     (list.length - 1) cmds1,
                   calls := calls3, world := w3 }
          | some (none, calls3, w3) =>
            some { output := os.outputString w3, stderr := os.stderrString w3, err := none,
                   cmds := modifyAt
                     (fun c => { c with Stdout := .outputBuf, Stderr := .stderrBuf })
                     (list.length - 1) cmds1,
                   calls := calls3, world := w3 } := by
  have hpos : 0 < list.length := List.length_pos.mpr hne
  have hlen : ¬ list.length < 1 := by omega
  unfold Pipeline
  rw [if_neg hlen]
  simp only [foldl_append_map, List.nil_append, List.length_map]

/-- When the operating system lets all the pipes be created, the wiring loop ends
without error, having made exactly these calls, and the handles it leaves become the
wired handles once the last one is given the two buffers. -/
theorem wiring_ok {σ : Type} (os : OS σ) (list : List Cmd) (w w1 : σ) (hd : List ExecCmd)
    (h : answers os hd (okCalls Call.stdoutPipe 0 (list.length - 1)) w = some w1) :
    ∃ c1, wireLoop os (list.length - 1) 0
        (list.map (fun cmd => Command os cmd.Name cmd.Args w)) [] w
      = (none, c1, okCalls Call.stdoutPipe 0 (list.length - 1), w1) ∧
      modifyAt (fun c => { c with Stdout := .outputBuf, Stderr := .stderrBuf })
        (list.length - 1) c1 = wiredHandles os list w := by
  obtain ⟨c1, hc1⟩ := wireLoop_answers_ok os hd (list.length - 1) 0
    (list.map (fun cmd => Command os cmd.Name cmd.Args w)) [] w w1 h
  have hH := HandlesOf_wireLoop os w list (list.length - 1) 0
    (list.map (fun cmd => Command os cmd.Name cmd.Args w)) [] w (initial_HandlesOf os w list)
  have hW := wireLoop_wired os w list (list.length - 1) 0
    (list.map (fun cmd => Command os cmd.Name cmd.Args w)) [] w (initial_wired os w list)
  rw [hc1] at hH hW
  simp only [List.nil_append, Nat.zero_add] at hH hW hc1
  refine ⟨c1, hc1, ?_⟩
  apply eq_wiredHandles
  · rw [length_modifyAt]
    exact hH.1
  · exact final_wired os w list c1 (hW trivial)

theorem suffix_self (cmds : List ExecCmd) : ∀ j, cmds[j]? = cmds[0 + j]? := by
  intro j
  rw [Nat.zero_add]

theorem length_wiredHandles {σ : Type} (os : OS σ) (list : List Cmd) (w : σ) :
    (wiredHandles os list w).length = list.length := by
  simp [wiredHandles]

/-- The run of `Pipeline` on a non-empty list when the operating system lets all the
pipes be created and then answers the calls of the given ending: `Pipeline` returns the
buffers as they stand in the state these calls lead to and the error of the ending,
having made exactly these calls on the wired handles. -/
theorem Pipeline_ending {σ : Type} (os : OS σ) (list : List Cmd) (w w2 : σ) (hne : list ≠ [])
    (ending : Ending)
    (h : answers os (wiredHandles os list w)
      (okCalls Call.stdoutPipe 0 (list.length - 1) ++ ending.calls list.length) w = some w2) :
    Pipeline os list w
      = some { output := os.outputString w2, stderr := os.stderrString w2,
               err := ending.err, cmds := wiredHandles os list w,
               calls := okCalls Call.stdoutPipe 0 (list.length - 1) ++
                 ending.calls list.length,
               world := w2 } := by
  obtain ⟨w1, hp, he⟩ := answers_append_some os _ _ _ w w2 h
  obtain ⟨c1, hc1, hw⟩ := wiring_ok os list w w1 _ hp
  rw [Pipeline_nonempty os list w hne, hc1]
  simp only [hw]
  have hlen := length_wiredHandles os list w
  cases ending with
  | startFails k e =>
    simp only [Ending.calls, Ending.err] at he ⊢
    have hs := eachCmd_answers_fail os (fun i c w => some (Start os i c w)) Call.start
      (wiredHandles os list w) (perform_start os _) (fun _ _ => rfl)
      (wiredHandles os list w) 0 k e (okCalls Call.stdoutPipe 0 (list.length - 1)) w1 w2
      (suffix_self _) (by rw [Nat.zero_add]; exact he)
    rw [Nat.zero_add] at hs
    rw [hs]
  | waitFails k e =>
    simp only [Ending.calls, Ending.err] at he ⊢
    obtain ⟨w3, hs3, hw3⟩ := answers_append_some os _ _ _ w1 w2 he
    have hs := eachCmd_answers_ok os (fun i c w => some (Start os i c w)) Call.start
      (wiredHandles os list w) (perform_start os _) (fun _ _ => rfl)
      (wiredHandles os list w) 0 (okCalls Call.stdoutPipe 0 (list.length - 1)) w1 w3
      (suffix_self _) (by rw [hlen]; exact hs3)
    rw [hlen] at hs
    rw [hs]
    simp only
    have hwt := eachCmd_answers_fail os os.wait Call.wait
      (wiredHandles os list w) (perform_wait os _) (fun _ _ => rfl)
      (wiredHandles os list w) 0 k e
      (okCalls Call.stdoutPipe 0 (list.length - 1) ++ okCalls Call.start 0 list.length) w3 w2
      (suffix_self _) (by rw [Nat.zero_add]; exact hw3)
    rw [Nat.zero_add] at hwt
    rw [hwt]
    simp [List.append_assoc]
  | allSucceed =>
    simp only [Ending.calls, Ending.err] at he ⊢
    obtain ⟨w3, hs3, hw3⟩ := answers_append_some os _ _ _ w1 w2 he
    have hs := eachCmd_answers_ok os (fun i c w => some (Start os i c w)) Call.start
      (wiredHandles os list w) (perform_start os _) (fun _ _ => rfl)
      (wiredHandles os list w) 0 (okCalls Call.stdoutPipe 0 (list.length - 1)) w1 w3
      (suffix_self _) (by rw [hlen]; exact hs3)
    rw [hlen] at hs
    rw [hs]
    simp only
    have hwt := eachCmd_answers_ok os os.wait Call.wait
      (wiredHandles os list w) (perform_wait os _) (fun _ _ => rfl)
      (wiredHandles os list w) 0
      (okCalls Call.stdoutPipe 0 (list.length - 1) ++ okCalls Call.start 0 list.length) w3 w2
      (suffix_self _) (by rw [hlen]; exact hw3)
    rw [hlen] at hwt
    rw [hwt]
    simp [List.append_assoc]

/-- The run of `Pipeline` on a non-empty list when all the pipes are created, all the
handles start, the waits on handles `0..k-1` succeed and the wait on handle `k` never
returns: `Pipeline` never returns. -/
theorem Pipeline_blocks {σ : Type} (os : OS σ) (list : List Cmd) (w w2 : σ) (hne : list ≠ [])
    (k : Nat) (c : ExecCmd)
    (h : answers os (wiredHandles os list w)
      (okCalls Call.stdoutPipe 0 (list.length - 1) ++
        (okCalls Call.start 0 list.length ++ okCalls Call.wait 0 k)) w = some w2)
    (hc : (wiredHandles os list w)[k]? = some c) (hblock : os.wait k c w2 = none) :
    Pipeline os list w = none := by
  obtain ⟨w1, hp, he⟩ := answers_append_some os _ _ _ w w2 h
  obtain ⟨w3, hs3, hw3⟩ := answers_append_some os _ _ _ w1 w2 he
  obtain ⟨c1, hc1, hw⟩ := wiring_ok os list w w1 _ hp
  rw [Pipeline_nonempty os list w hne, hc1]
  simp only [hw]
  have hlen := length_wiredHandles os list w
  have hs := eachCmd_answers_ok os (fun i c w => some (Start os i c w)) Call.start
    (wiredHandles os list w) (perform_start os _) (fun _ _ => rfl)
    (wiredHandles os list w) 0 (okCalls Call.stdoutPipe 0 (list.length - 1)) w1 w3
    (suffix_self _) (by rw [hlen]; exact hs3)
  rw [hs]
  simp only
  have hb := eachCmd_blocks os os.wait Call.wait
    (wiredHandles os list w) (perform_wait os _) (fun _ _ => rfl)
    (wiredHandles os list w) 0 k c
    (okCalls Call.stdoutPipe 0 (list.length - 1) ++
      okCalls Call.start 0 (wiredHandles os list w).length) w3 w2
    (suffix_self _) hw3 (by rw [Nat.zero_add]; exact hc) (by rw [Nat.zero_add]; exact hblock)
  rw [hb]

/-- The run of `Pipeline` on a non-empty list when the operating system lets `k` pipes be
created and fails the next one: `Pipeline` returns that error and two empty strings,
having made exactly these calls. -/
theorem Pipeline_pipe_fails {σ : Type} (os : OS σ) (list : List Cmd) (w w2 : σ)
    (hne : list ≠ []) (k : Nat) (e : Err) (hd : List ExecCmd) (hk : k + 1 < list.length)
    (h : answers os hd (okCalls Call.stdoutPipe 0 k ++ [Call.stdoutPipe k (some e)]) w
      = some w2) :
    ∃ c1, Pipeline os list w
      = some { output := "", stderr := "", err := some e, cmds := c1,
               calls := okCalls Call.stdoutPipe 0 k ++ [Call.stdoutPipe k (some e)],
               world := w2 } := by
  obtain ⟨c1, hc1⟩ := wireLoop_answers_fail os hd (list.length - 1) 0 k e
    (list.map (fun cmd => Command os cmd.Name cmd.Args w)) [] w w2 (by omega)
    (by rw [Nat.zero_add]; exact h)
  rw [Nat.zero_add, List.nil_append] at hc1
  exact ⟨c1, by rw [Pipeline_nonempty os list w hne, hc1]⟩

/-- Whenever `Pipeline` returns on a non-empty list, the handles it has built are those
of the descriptors, in order. -/
theorem Pipeline_handles {σ : Type} (os : OS σ) (list : List Cmd) (w : σ) (hne : list ≠ [])
    (r : PipelineRun σ) (h : Pipeline os list w = some r) : HandlesOf os w list r.cmds := by
  rw [Pipeline_nonempty os list w hne] at h
  have hH := HandlesOf_wireLoop os w list (list.length - 1) 0
    (list.map (fun cmd => Command os cmd.Name cmd.Args w)) [] w (initial_HandlesOf os w list)
  generalize wireLoop os (list.length - 1) 0
    (list.map (fun cmd => Command os cmd.Name cmd.Args w)) [] w = res at h hH
  obtain ⟨e, c1, calls1, w1⟩ := res
  have hH2 : HandlesOf os w list
      (modifyAt (fun c => { c with Stdout := .outputBuf, Stderr := .stderrBuf })
        (list.length - 1) c1) := by
    refine HandlesOf_modifyAt os w _ _ _ _ ?_ hH
    intro c
    exact ⟨rfl, rfl, rfl⟩
  cases e with
  | some e =>
    simp only [Option.some.injEq] at h
    subst h
    exact hH
  | none =>
    simp only at h
    generalize eachCmd (fun i c w => some (Start os i c w)) Call.start 0
      (modifyAt (fun c => { c with Stdout := .outputBuf, Stderr := .stderrBuf })
        (list.length - 1) c1) calls1 w1 = r1 at h
    cases r1 with
    | none => simp at h
    | some t =>
      obtain ⟨e1, calls2, w2⟩ := t
      cases e1 with
      | some e1 =>
        simp only [Option.some.injEq] at h
        subst h
        exact hH2
      | none =>
        simp only at h
        generalize eachCmd os.wait Call.wait 0
          (modifyAt (fun c => { c with Stdout := .outputBuf, Stderr := .stderrBuf })
            (list.length - 1) c1) calls2 w2 = r2 at h
        cases r2 with
        | none => simp at h
        | some t2 =>
          obtain ⟨e2, calls3, w3⟩ := t2
          cases e2 with
          | some e2 =>
            simp only [Option.some.injEq] at h
            subst h
            exact hH2
          | none =>
            simp only [Option.some.injEq] at h
            subst h
            exact hH2

/-! ## Lemmas on the call traces -/

theorem wait_not_mem_okCalls_pipe (a n j : Nat) (e : Option Err) :
    Call.wait j e ∉ okCalls Call.stdoutPipe a n := by
  rw [mem_okCalls]
  rintro ⟨i, _, _, hi⟩
  cases hi

theorem wait_not_mem_okCalls_start (a n j : Nat) (e : Option Err) :
    Call.wait j e ∉ okCalls Call.start a n := by
  rw [mem_okCalls]
  rintro ⟨i, _, _, hi⟩
  cases hi

theorem start_not_mem_okCalls_pipe (a n j : Nat) (e : Option Err) :
    Call.start j e ∉ okCalls Call.stdoutPipe a n := by
  rw [mem_okCalls]
  rintro ⟨i, _, _, hi⟩
  cases hi

theorem start_mem_okCalls_start (a n j : Nat) (e : Option Err) :
    Call.start j e ∈ okCalls Call.start a n ↔ a ≤ j ∧ j < a + n ∧ e = none := by
  rw [mem_okCalls]
  constructor
  · rintro ⟨i, h1, h2, hi⟩
    cases hi
    exact ⟨h1, h2, rfl⟩
  · rintro ⟨h1, h2, rfl⟩
    exact ⟨j, h1, h2, rfl⟩

theorem wait_mem_okCalls_wait (a n j : Nat) (e : Option Err) :
    Call.wait j e ∈ okCalls Call.wait a n ↔ a ≤ j ∧ j < a + n ∧ e = none := by
  rw [mem_okCalls]
  constructor
  · rintro ⟨i, h1, h2, hi⟩
    cases hi
    exact ⟨h1, h2, rfl⟩
  · rintro ⟨h1, h2, rfl⟩
    exact ⟨j, h1, h2, rfl⟩

/-- A start that the operating system answers is the start of an existing handle. -/
theorem answers_start_lt {σ : Type} (os : OS σ) (cmds : List ExecCmd) (pre : List Call)
    (k : Nat) (x : Option Err) (w w2 : σ)
    (h : answers os cmds (pre ++ [Call.start k x]) w = some w2) : k < cmds.length := by
  obtain ⟨w1, _, h1⟩ := answers_append_some os cmds pre _ w w2 h
  rw [answers_cons, perform_start] at h1
  rcases Nat.lt_or_ge k cmds.length with hk | hk
  · exact hk
  · simp [List.getElem?_eq_none hk] at h1

/-- A wait that the operating system answers is the wait on an existing handle. -/
theorem answers_wait_lt {σ : Type} (os : OS σ) (cmds : List ExecCmd) (pre : List Call)
    (k : Nat) (x : Option Err) (w w2 : σ)
    (h : answers os cmds (pre ++ [Call.wait k x]) w = some w2) : k < cmds.length := by
  obtain ⟨w1, _, h1⟩ := answers_append_some os cmds pre _ w w2 h
  rw [answers_cons, perform_wait] at h1
  rcases Nat.lt_or_ge k cmds.length with hk | hk
  · exact hk
  · simp [List.getElem?_eq_none hk] at h1

theorem answers_append_of {σ : Type} (os : OS σ) (cmds : List ExecCmd) (a b : List Call)
    (w w1 w2 : σ) (ha : answers os cmds a w = some w1) (hb : answers os cmds b w1 = some w2) :
    answers os cmds (a ++ b) w = some w2 := by
  rw [answers_append, ha]
  exact hb

/-- What `Run` does with a program that the search path does not resolve: the
process-replacing strategy returns `command not found: <program>` and leaves the state
as it is; the spawn-and-wait strategy, for a bare program name, returns the lookup error
itself. -/
theorem Run_unresolved {σ : Type} (os : OS σ) (cmd : Cmd) (w : σ) (e : Err)
    (h : os.lookPath cmd.Name w = .error e) :
    Run os false cmd w = .returned (some ("command not found: " ++ cmd.Name)) w ∧
    (os.baseIsName cmd.Name = true →
      Run os true cmd w = .returned (some e) (os.closeDescriptors 0 w)) := by
  constructor
  · simp [Run, Exec, h]
  · intro hb
    simp [Run, Spawn, ExecRun, Start, Command, hb, h]

/-! ## Claims on the descriptor operations -/

/-- C5: whenever the tokenizer splits the command string into tokens `t0, t1, ..., tn`,
`New` returns the descriptor with `Name = t0` and `Args = [t1, ..., tn]`, in order; with
the shell-style tokenizer, `"prog a b c"` gives `prog` with `["a","b","c"]` and `"ls"`
gives `ls` with no arguments. -/
theorem New_name_and_args (split : Tokenizer) (cmd t0 : String) (ts : List String)
    (h : split cmd = .ok (t0 :: ts)) :
    New split cmd = .ok { Name := t0, Args := ts } ∧
    New shellSplit "prog a b c" = .ok { Name := "prog", Args := ["a", "b", "c"] } ∧
    New shellSplit "ls" = .ok { Name := "ls", Args := [] } :=
  ⟨New_of_tokens split cmd t0 ts h, by decide, by decide⟩

theorem New_name_and_args_witness :
    shellSplit "git commit -m 'first draft'" = .ok ("git" :: ["commit", "-m", "first draft"]) ∧
    (New shellSplit "git commit -m 'first draft'"
        = .ok { Name := "git", Args := ["commit", "-m", "first draft"] } ∧
      New shellSplit "prog a b c" = .ok { Name := "prog", Args := ["a", "b", "c"] } ∧
      New shellSplit "ls" = .ok { Name := "ls", Args := [] }) :=
  ⟨by decide, New_name_and_args shellSplit "git commit -m 'first draft'" "git"
    ["commit", "-m", "first draft"] (by decide)⟩

/-- C6: `WithArgs` leaves `Name` unchanged and makes `Args` the previous `Args` followed
by the extra arguments in the order given; the argument count grows by the number of
extras; and `WithArgs xs` followed by `WithArgs ys` is `WithArgs (xs ++ ys)`. -/
theorem WithArgs_appends (cmd : Cmd) (xs ys : List String) :
    (WithArgs cmd xs).Name = cmd.Name ∧
    (WithArgs cmd xs).Args = cmd.Args ++ xs ∧
    (WithArgs cmd xs).Args.length = cmd.Args.length + xs.length ∧
    WithArgs (WithArgs cmd xs) ys = WithArgs cmd (xs ++ ys) := by
  simp [WithArgs_eq]

/-- C7: `String()` is the program name, one space, then the arguments joined by single
spaces in order; `New("ls").WithArgs("-a","-l").String()` is `"ls -a -l"`; and with no
arguments the result is the program name followed by one trailing space, which is not
the bare program name. -/
theorem CmdString_spec (cmd : Cmd) (name : String) :
    CmdString cmd = cmd.Name ++ " " ++ " ".intercalate cmd.Args ∧
    (New shellSplit "ls").map (fun c => CmdString (WithArgs c ["-a", "-l"])) = .ok "ls -a -l" ∧
    CmdString { Name := name, Args := [] } = name ++ " " ∧
    CmdString { Name := name, Args := [] } ≠ name := by
  refine ⟨by simp [CmdString, Join_eq_intercalate], by decide, by simp [CmdString, Join], ?_⟩
  intro h
  have h2 := congrArg String.length h
  simp [CmdString, Join] at h2
  exact absurd h2 (by decide)

/-- C8 fails as stated: a pair of quotes tokenizes to the single empty token, and `New`
returns a descriptor whose `Name` is the empty string; so it is not true that for every
tokenizer result `New` aborts or returns a non-empty `Name`. -/
theorem New_empty_name_counterexample :
    shellSplit "''" = .ok [""] ∧
    New shellSplit "''" = .ok { Name := "", Args := [] } ∧
    ¬ AbortsOrNamed (New shellSplit "''") ∧
    ¬ (∀ (split : Tokenizer) (cmd : String), AbortsOrNamed (New split cmd)) := by
  have h : ¬ AbortsOrNamed (New shellSplit "''") := by
    simp [AbortsOrNamed, New, show shellSplit "''" = .ok [""] by decide]
  exact ⟨by decide, by decide, h, fun hall => h (hall shellSplit "''")⟩

/-- C8, amended: if the tokenizer result does not begin with the empty token, `New` either
aborts or returns a descriptor whose `Name` is non-empty, and `Name` stays non-empty
through any sequence of later `WithArgs` calls; and a command line that tokenizes to no
tokens makes `New` abort. -/
theorem New_name_nonempty (split : Tokenizer) (cmd : String)
    (h : ∀ ts, split cmd ≠ .ok ("" :: ts)) :
    AbortsOrNamed (New split cmd) ∧
    (∀ c, New split cmd = .ok c →
      ∀ calls : List (List String), (calls.foldl WithArgs c).Name ≠ "") ∧
    (split cmd = .ok [] → New split cmd = .error .indexOutOfRange) := by
  have hname : ∀ c, New split cmd = .ok c → c.Name ≠ "" := by
    intro c hc
    unfold New at hc
    cases hs : split cmd with
    | error e => simp [hs] at hc
    | ok toks =>
      cases toks with
      | nil => simp [hs] at hc
      | cons t0 ts =>
        simp [hs] at hc
        intro h0
        apply h ts
        rw [hs, ← hc] at *
        simp at h0
        simp [h0]
  refine ⟨?_, ?_, ?_⟩
  · unfold AbortsOrNamed
    cases hr : New split cmd with
    | error e => trivial
    | ok c => exact hname c hr
  · intro c hc calls
    have hkeep : ∀ (calls : List (List String)) (d : Cmd),
        (calls.foldl WithArgs d).Name = d.Name := by
      intro calls
      induction calls with
      | nil => intro d; rfl
      | cons xs rest ih => intro d; simp [ih, WithArgs_eq]
    rw [hkeep]
    exact hname c hc
  · intro hs
    simp [New, hs]

theorem New_name_nonempty_witness :
    (∀ ts, shellSplit "ls -a" ≠ .ok ("" :: ts)) ∧
    (AbortsOrNamed (New shellSplit "ls -a") ∧
      (∀ c, New shellSplit "ls -a" = .ok c →
        ∀ calls : List (List String), (calls.foldl WithArgs c).Name ≠ "") ∧
      (shellSplit "ls -a" = .ok [] → New shellSplit "ls -a" = .error .indexOutOfRange)) :=
  have h : ∀ ts, shellSplit "ls -a" ≠ .ok ("" :: ts) := by
    intro ts
    rw [show shellSplit "ls -a" = .ok ["ls", "-a"] by decide]
    simp
  ⟨h, New_name_nonempty shellSplit "ls -a" h⟩

/-! ## Claims on `Pipeline` -/

/-- C1: for the empty list of descriptors `Pipeline` returns the empty string as output,
the empty string as stderr and no error; it builds no handle, makes no call on any
handle (no start, no wait) and leaves the state of the operating system untouched. -/
theorem Pipeline_empty {σ : Type} (os : OS σ) (w : σ) :
    Pipeline os [] w
      = some { output := "", stderr := "", err := none, cmds := [], calls := [],
               world := w } := by
  rfl

/-- C2: on a non-empty list, when the wiring is done (the operating system lets the
`N-1` pipes be created), the handles `0..k-1` start and the start of handle `k` fails
with `e`, all of this leading the operating system to state `w2`: `Pipeline` returns `e`
with the contents the output and stderr buffers have in `w2`, having made exactly these
calls, in list order, on the wired handles; so it starts no handle after `k` and waits
on no handle at all. -/
theorem Pipeline_start_failure {σ : Type} (os : OS σ) (list : List Cmd) (w w2 : σ)
    (k : Nat) (e : Err) (hne : list ≠ [])
    (h : answers os (wiredHandles os list w)
      (okCalls Call.stdoutPipe 0 (list.length - 1) ++
        (okCalls Call.start 0 k ++ [Call.start k (some e)])) w = some w2) :
    k < list.length ∧
    Pipeline os list w
      = some { output := os.outputString w2, stderr := os.stderrString w2, err := some e,
               cmds := wiredHandles os list w,
               calls := okCalls Call.stdoutPipe 0 (list.length - 1) ++
                 (okCalls Call.start 0 k ++ [Call.start k (some e)]),
               world := w2 } ∧
    (∀ r, Pipeline os list w = some r →
      (∀ j e1, k < j → Call.start j e1 ∉ r.calls) ∧ (∀ j e1, Call.wait j e1 ∉ r.calls)) := by
  have hrun := Pipeline_ending os list w w2 hne (Ending.startFails k e) h
  simp only [Ending.calls, Ending.err] at hrun
  have hk : k < list.length := by
    have := answers_start_lt os (wiredHandles os list w)
      (okCalls Call.stdoutPipe 0 (list.length - 1) ++ okCalls Call.start 0 k) k (some e) w w2
      (by rw [List.append_assoc]; exact h)
    rwa [length_wiredHandles] at this
  refine ⟨hk, hrun, ?_⟩
  intro r hr
  rw [hrun] at hr
  cases hr
  constructor
  · intro j e1 hj hmem
    simp [start_not_mem_okCalls_pipe, start_mem_okCalls_start] at hmem
    omega
  · intro j e1 hmem
    simp [wait_not_mem_okCalls_pipe, wait_not_mem_okCalls_start] at hmem

theorem Pipeline_start_failure_witness :
    ([⟨"a", []⟩, ⟨"nosuch", []⟩, ⟨"c", []⟩] : List Cmd) ≠ [] ∧
    answers demoOS (wiredHandles demoOS [⟨"a", []⟩, ⟨"nosuch", []⟩, ⟨"c", []⟩] [])
      (okCalls Call.stdoutPipe 0 2 ++ (okCalls Call.start 0 1 ++
        [Call.start 1 (some "exec: \"nosuch\": executable file not found in $PATH")])) []
      = some ["/bin/a>pipe"] ∧
    Pipeline demoOS [⟨"a", []⟩, ⟨"nosuch", []⟩, ⟨"c", []⟩] []
      = some { output := "/bin/a>pipe", stderr := "",
               err := some "exec: \"nosuch\": executable file not found in $PATH",
               cmds := wiredHandles demoOS [⟨"a", []⟩, ⟨"nosuch", []⟩, ⟨"c", []⟩] [],
               calls := [Call.stdoutPipe 0 none, Call.stdoutPipe 1 none, Call.start 0 none,
                 Call.start 1 (some "exec: \"nosuch\": executable file not found in $PATH")],
               world := ["/bin/a>pipe"] } ∧
    (Pipeline demoOS [⟨"a", []⟩, ⟨"nosuch", []⟩, ⟨"c", []⟩] []).map
        (fun r => (r.output, r.err, r.world))
      = some ("/bin/a>pipe", some "exec: \"nosuch\": executable file not found in $PATH",
          ["/bin/a>pipe"]) :=
  have hne : ([⟨"a", []⟩, ⟨"nosuch", []⟩, ⟨"c", []⟩] : List Cmd) ≠ [] := by simp
  ⟨hne, by decide,
    (Pipeline_start_failure demoOS [⟨"a", []⟩, ⟨"nosuch", []⟩, ⟨"c", []⟩] [] ["/bin/a>pipe"] 1
      "exec: \"nosuch\": executable file not found in $PATH" hne (by decide)).2.1,
    by decide⟩

/-- C3: on a non-empty list whose handles all start successfully (the pipes are created
and every start succeeds, leading to state `w1`), `Pipeline` waits on the handles in
list order.  When the waits on handles `0..k-1` succeed and the wait on handle `k` fails
with `e`, it returns `e` with the contents of the output and stderr buffers and waits on
no handle after `k`.  When every wait succeeds, it returns the contents of the
final-output buffer, the contents of the shared stderr buffer and no error.  In both
cases the buffers are read in the state `w2` the waits lead to.  (When a wait never
returns, neither does `Pipeline`.) -/
theorem Pipeline_wait_phase {σ : Type} (os : OS σ) (list : List Cmd) (w w1 : σ)
    (hne : list ≠ [])
    (hstart : answers os (wiredHandles os list w)
      (okCalls Call.stdoutPipe 0 (list.length - 1) ++ okCalls Call.start 0 list.length) w
      = some w1) :
    (∀ (k : Nat) (e : Err) (w2 : σ),
      answers os (wiredHandles os list w)
        (okCalls Call.wait 0 k ++ [Call.wait k (some e)]) w1 = some w2 →
      k < list.length ∧
      Pipeline os list w
        = some { output := os.outputString w2, stderr := os.stderrString w2, err := some e,
                 cmds := wiredHandles os list w,
                 calls := okCalls Call.stdoutPipe 0 (list.length - 1) ++
                   (okCalls Call.start 0 list.length ++
                     (okCalls Call.wait 0 k ++ [Call.wait k (some e)])),
                 world := w2 } ∧
      (∀ r, Pipeline os list w = some r → ∀ j e1, k < j → Call.wait j e1 ∉ r.calls)) ∧
    (∀ w2 : σ,
      answers os (wiredHandles os list w) (okCalls Call.wait 0 list.length) w1 = some w2 →
      Pipeline os list w
        = some { output := os.outputString w2, stderr := os.stderrString w2, err := none,
                 cmds := wiredHandles os list w,
                 calls := okCalls Call.stdoutPipe 0 (list.length - 1) ++
                   (okCalls Call.start 0 list.length ++ okCalls Call.wait 0 list.length),
                 world := w2 }) ∧
    (∀ (k : Nat) (c : ExecCmd) (w2 : σ),
      answers os (wiredHandles os list w) (okCalls Call.wait 0 k) w1 = some w2 →
      (wiredHandles os list w)[k]? = some c → os.wait k c w2 = none →
      Pipeline os list w = none) := by
  obtain ⟨wp, hp, hs⟩ := answers_append_some os _ _ _ w w1 hstart
  refine ⟨?_, ?_, ?_⟩
  · intro k e w2 hw
    have hall : answers os (wiredHandles os list w)
        (okCalls Call.stdoutPipe 0 (list.length - 1) ++
          (Ending.waitFails k e).calls list.length) w = some w2 := by
      simp only [Ending.calls]
      exact answers_append_of os _ _ _ w wp w2 hp
        (answers_append_of os _ _ _ wp w1 w2 hs hw)
    have hrun := Pipeline_ending os list w w2 hne (Ending.waitFails k e) hall
    simp only [Ending.calls, Ending.err] at hrun
    have hk : k < list.length := by
      have := answers_wait_lt os (wiredHandles os list w) (okCalls Call.wait 0 k) k (some e)
        w1 w2 hw
      rwa [length_wiredHandles] at this
    refine ⟨hk, hrun, ?_⟩
    intro r hr j e1 hj hmem
    rw [hrun] at hr
    cases hr
    simp [wait_not_mem_okCalls_pipe, wait_not_mem_okCalls_start, wait_mem_okCalls_wait]
      at hmem
    omega
  · intro w2 hw
    have hall : answers os (wiredHandles os list w)
        (okCalls Call.stdoutPipe 0 (list.length - 1) ++
          Ending.allSucceed.calls list.length) w = some w2 := by
      simp only [Ending.calls]
      exact answers_append_of os _ _ _ w wp w2 hp
        (answers_append_of os _ _ _ wp w1 w2 hs hw)
    have hrun := Pipeline_ending os list w w2 hne Ending.allSucceed hall
    simpa only [Ending.calls, Ending.err] using hrun
  · intro k c w2 hw hc hblock
    exact Pipeline_blocks os list w w2 hne k c
      (answers_append_of os _ _ _ w wp w2 hp (answers_append_of os _ _ _ wp w1 w2 hs hw))
      hc hblock

theorem Pipeline_wait_phase_witness :
    ([⟨"a", []⟩, ⟨"false", []⟩, ⟨"c", []⟩] : List Cmd) ≠ [] ∧
    answers demoOS (wiredHandles demoOS [⟨"a", []⟩, ⟨"false", []⟩, ⟨"c", []⟩] [])
      (okCalls Call.stdoutPipe 0 2 ++ okCalls Call.start 0 3) []
      = some ["/bin/a>pipe", "/bin/false>pipe", "/bin/c>output"] ∧
    answers demoOS (wiredHandles demoOS [⟨"a", []⟩, ⟨"false", []⟩, ⟨"c", []⟩] [])
      (okCalls Call.wait 0 1 ++ [Call.wait 1 (some "exit status 1")])
      ["/bin/a>pipe", "/bin/false>pipe", "/bin/c>output"]
      = some ["/bin/a>pipe", "/bin/false>pipe", "/bin/c>output"] ∧
    Pipeline demoOS [⟨"a", []⟩, ⟨"false", []⟩, ⟨"c", []⟩] []
      = some { output := "/bin/a>pipe,/bin/false>pipe,/bin/c>output", stderr := "",
               err := some "exit status 1",
               cmds := wiredHandles demoOS [⟨"a", []⟩, ⟨"false", []⟩, ⟨"c", []⟩] [],
               calls := [Call.stdoutPipe 0 none, Call.stdoutPipe 1 none, Call.start 0 none,
                 Call.start 1 none, Call.start 2 none, Call.wait 0 none,
                 Call.wait 1 (some "exit status 1")],
               world := ["/bin/a>pipe", "/bin/false>pipe", "/bin/c>output"] } ∧
    (Pipeline demoOS [⟨"a", []⟩, ⟨"false", []⟩, ⟨"c", []⟩] []).map
        (fun r => (r.output, r.err, r.world))
      = some ("/bin/a>pipe,/bin/false>pipe,/bin/c>output", some "exit status 1",
          ["/bin/a>pipe", "/bin/false>pipe", "/bin/c>output"]) ∧
    (Pipeline demoOS [⟨"a", []⟩, ⟨"c", []⟩, ⟨"false", []⟩] []).map
        (fun r => (r.output, r.err, r.world))
      = some ("/bin/a>pipe,/bin/c>pipe,/bin/false>output", some "exit status 1",
          ["/bin/a>pipe", "/bin/c>pipe", "/bin/false>output"]) ∧
    Pipeline demoOS [⟨"yes", []⟩, ⟨"head", ["-1"]⟩] [] = none :=
  have hne : ([⟨"a", []⟩, ⟨"false", []⟩, ⟨"c", []⟩] : List Cmd) ≠ [] := by simp
  ⟨hne, by decide, by decide,
    ((Pipeline_wait_phase demoOS [⟨"a", []⟩, ⟨"false", []⟩, ⟨"c", []⟩] []
      ["/bin/a>pipe", "/bin/false>pipe", "/bin/c>output"] hne (by decide)).1 1 "exit status 1"
      ["/bin/a>pipe", "/bin/false>pipe", "/bin/c>output"] (by decide)).2.1,
    by decide, by decide, by decide⟩

/-- C4 fails as stated: when creating the pipe fails, `Pipeline` returns at once with the
pipe error and two empty strings; the handles are left with every stream unset, so the
second handle's stdin is not the pipe reading the first handle's stdout, no handle's
stderr is the shared stderr buffer, and the last handle's stdout is not the final-output
buffer. -/
theorem Pipeline_wiring_counterexample :
    Pipeline noPipeOS [⟨"a", []⟩, ⟨"b", []⟩] []
      = some { output := "", stderr := "", err := some "pipe: too many open files",
               cmds := [⟨"/bin/a", ["a"], none, .unset, .unset, .unset⟩,
                        ⟨"/bin/b", ["b"], none, .unset, .unset, .unset⟩],
               calls := [Call.stdoutPipe 0 (some "pipe: too many open files")],
               world := [] } ∧
    (Pipeline noPipeOS [⟨"a", []⟩, ⟨"b", []⟩] []).map (fun r => r.cmds.map ExecCmd.Stdin)
      = some [Endpoint.unset, Endpoint.unset] ∧
    (Pipeline noPipeOS [⟨"a", []⟩, ⟨"b", []⟩] []).map (fun r => r.cmds.map ExecCmd.Stderr)
      = some [Endpoint.unset, Endpoint.unset] ∧
    (Pipeline noPipeOS [⟨"a", []⟩, ⟨"b", []⟩] []).map (fun r => r.cmds.map ExecCmd.Stdout)
      = some [Endpoint.unset, Endpoint.unset] := by
  decide

/-- C4, amended: for every list of `N >= 1` descriptors `Pipeline` builds exactly `N`
handles in list order, handle `i` being what `exec.Command` makes of descriptor `i`'s
program and arguments (same path and lookup error, and as argument vector the program
followed by the arguments).  The wired handles are these with handle `i+1`'s stdin the
pipe reading handle `i`'s stdout (handle 0's stdin unset), every handle's stderr the
shared stderr buffer, and the last handle's stdout, and only that one, the final-output
buffer.  Provided no `StdoutPipe` call fails, it is on the wired handles that `Pipeline`
makes every start and wait, whatever the ending, and the output and stderr it returns
are the contents of the two buffers in the state these calls lead to.  When a
`StdoutPipe` call fails, `Pipeline` returns that error and two empty strings, having
made no other call. -/
theorem Pipeline_wiring {σ : Type} (os : OS σ) (list : List Cmd) (w : σ) (hne : list ≠ []) :
    (∀ r, Pipeline os list w = some r →
      r.cmds.length = list.length ∧
      ∀ (i : Nat) (d : Cmd), list[i]? = some d →
        ∃ h : ExecCmd, r.cmds[i]? = some h ∧ h.Path = (Command os d.Name d.Args w).Path ∧
          h.Args = d.Name :: d.Args ∧ h.Err = (Command os d.Name d.Args w).Err) ∧
    (wiredHandles os list w).length = list.length ∧
    (∀ (i : Nat) (d : Cmd), list[i]? = some d →
      (wiredHandles os list w)[i]? = some
        { Command os d.Name d.Args w with
          Stdin := if i = 0 then .unset else .pipeReader (i - 1),
          Stdout := if i + 1 = list.length then .outputBuf else .pipeWriter i,
          Stderr := .stderrBuf }) ∧
    (∀ (i : Nat) (h : ExecCmd), (wiredHandles os list w)[i]? = some h →
      (h.Stdout = .outputBuf ↔ i + 1 = list.length)) ∧
    (∀ (ending : Ending) (w2 : σ),
      answers os (wiredHandles os list w)
        (okCalls Call.stdoutPipe 0 (list.length - 1) ++ ending.calls list.length) w
        = some w2 →
      Pipeline os list w
        = some { output := os.outputString w2, stderr := os.stderrString w2,
                 err := ending.err, cmds := wiredHandles os list w,
                 calls := okCalls Call.stdoutPipe 0 (list.length - 1) ++
                   ending.calls list.length,
                 world := w2 }) ∧
    (∀ (k : Nat) (e : Err) (w2 : σ), k + 1 < list.length →
      answers os (wiredHandles os list w)
        (okCalls Call.stdoutPipe 0 k ++ [Call.stdoutPipe k (some e)]) w = some w2 →
      ∃ c1, Pipeline os list w
        = some { output := "", stderr := "", err := some e, cmds := c1,
                 calls := okCalls Call.stdoutPipe 0 k ++ [Call.stdoutPipe k (some e)],
                 world := w2 }) := by
  refine ⟨fun r hr => Pipeline_handles os list w hne r hr, length_wiredHandles os list w,
    ?_, ?_, fun ending w2 h => Pipeline_ending os list w w2 hne ending h,
    fun k e w2 hk h => Pipeline_pipe_fails os list w w2 hne k e _ hk h⟩
  · intro i d hd
    rw [getElem?_wiredHandles, hd]
    rfl
  · intro i h hi
    rw [getElem?_wiredHandles] at hi
    cases hd : list[i]? with
    | none => simp [hd] at hi
    | some d =>
      simp only [hd, Option.map_some', Option.some.injEq] at hi
      subst hi
      unfold finalHandle
      by_cases h1 : i + 1 = list.length
      · simp [h1]
      · simp [h1]

theorem Pipeline_wiring_witness :
    ([⟨"cat", ["f"]⟩, ⟨"sort", []⟩, ⟨"uniq", ["-c"]⟩] : List Cmd) ≠ [] ∧
    wiredHandles demoOS [⟨"cat", ["f"]⟩, ⟨"sort", []⟩, ⟨"uniq", ["-c"]⟩] []
      = [⟨"/bin/cat", ["cat", "f"], none, .unset, .pipeWriter 0, .stderrBuf⟩,
          ⟨"/bin/sort", ["sort"], none, .pipeReader 0, .pipeWriter 1, .stderrBuf⟩,
          ⟨"/bin/uniq", ["uniq", "-c"], none, .pipeReader 1, .outputBuf, .stderrBuf⟩] ∧
    answers demoOS (wiredHandles demoOS [⟨"cat", ["f"]⟩, ⟨"sort", []⟩, ⟨"uniq", ["-c"]⟩] [])
      (okCalls Call.stdoutPipe 0 2 ++ Ending.allSucceed.calls 3) []
      = some ["/bin/cat>pipe", "/bin/sort>pipe", "/bin/uniq>output"] ∧
    Pipeline demoOS [⟨"cat", ["f"]⟩, ⟨"sort", []⟩, ⟨"uniq", ["-c"]⟩] []
      = some { output := "/bin/cat>pipe,/bin/sort>pipe,/bin/uniq>output", stderr := "", err := none,
               cmds := wiredHandles demoOS
                 [⟨"cat", ["f"]⟩, ⟨"sort", []⟩, ⟨"uniq", ["-c"]⟩] [],
               calls := okCalls Call.stdoutPipe 0 2 ++ Ending.allSucceed.calls 3,
               world := ["/bin/cat>pipe", "/bin/sort>pipe", "/bin/uniq>output"] } ∧
    (Pipeline demoOS [⟨"cat", ["f"]⟩, ⟨"sort", []⟩, ⟨"uniq", ["-c"]⟩] []).map
        (fun r => (r.output, r.cmds, r.world))
      = some ("/bin/cat>pipe,/bin/sort>pipe,/bin/uniq>output",
          [⟨"/bin/cat", ["cat", "f"], none, .unset, .pipeWriter 0, .stderrBuf⟩,
            ⟨"/bin/sort", ["sort"], none, .pipeReader 0, .pipeWriter 1, .stderrBuf⟩,
            ⟨"/bin/uniq", ["uniq", "-c"], none, .pipeReader 1, .outputBuf, .stderrBuf⟩],
          ["/bin/cat>pipe", "/bin/sort>pipe", "/bin/uniq>output"]) :=
  have hne : ([⟨"cat", ["f"]⟩, ⟨"sort", []⟩, ⟨"uniq", ["-c"]⟩] : List Cmd) ≠ [] := by simp
  ⟨hne, by decide, by decide,
    (Pipeline_wiring demoOS [⟨"cat", ["f"]⟩, ⟨"sort", []⟩, ⟨"uniq", ["-c"]⟩] [] hne).2.2.2.2.1
      Ending.allSucceed ["/bin/cat>pipe", "/bin/sort>pipe", "/bin/uniq>output"] (by decide),
    by decide⟩

/-! ## Claims on `Copy` and `Run` -/

/-- C10: for every data string, `Copy` runs `Pipeline` on exactly two descriptors, in
this order: `echo` with `data` as its only argument, untouched, and then `clip` when
`isWindows` holds and `pbcopy` otherwise, with no arguments; and `Copy` returns the error
of that run of `Pipeline` (and never returns when that run does not).  This holds for
every tokenizer that splits each of the three bare words into itself, and so for the
shell-style tokenizer. -/
theorem Copy_runs_pipeline {σ : Type} (split : Tokenizer) (isWindows : Bool) (os : OS σ)
    (data : String) (w : σ)
    (hecho : split "echo" = .ok ["echo"]) (hclip : split "clip" = .ok ["clip"])
    (hpbcopy : split "pbcopy" = .ok ["pbcopy"]) :
    Copy split isWindows os data w
      = .ok ((Pipeline os [⟨"echo", [data]⟩,
                ⟨if isWindows then "clip" else "pbcopy", []⟩] w).map
              (fun r => (r.err, r))) ∧
    Copy shellSplit isWindows os data w
      = .ok ((Pipeline os [⟨"echo", [data]⟩,
                ⟨if isWindows then "clip" else "pbcopy", []⟩] w).map
              (fun r => (r.err, r))) := by
  have key : ∀ sp : Tokenizer, sp "echo" = .ok ["echo"] → sp "clip" = .ok ["clip"] →
      sp "pbcopy" = .ok ["pbcopy"] →
      Copy sp isWindows os data w
        = .ok ((Pipeline os [⟨"echo", [data]⟩,
                  ⟨if isWindows then "clip" else "pbcopy", []⟩] w).map
                (fun r => (r.err, r))) := by
    intro sp h1 h2 h3
    unfold Copy
    rw [New_of_tokens sp "echo" "echo" [] h1]
    cases isWindows with
    | true =>
      simp only [if_true, New_of_tokens sp "clip" "clip" [] h2, WithArgs_eq,
        List.nil_append]
      cases Pipeline os [⟨"echo", [data]⟩, ⟨"clip", []⟩] w <;> rfl
    | false =>
      simp only [Bool.false_eq_true, if_false, New_of_tokens sp "pbcopy" "pbcopy" [] h3,
        WithArgs_eq, List.nil_append]
      cases Pipeline os [⟨"echo", [data]⟩, ⟨"pbcopy", []⟩] w <;> rfl
  exact ⟨key split hecho hclip hpbcopy, key shellSplit (by decide) (by decide) (by decide)⟩

theorem Copy_runs_pipeline_witness :
    shellSplit "echo" = .ok ["echo"] ∧ shellSplit "clip" = .ok ["clip"] ∧
    shellSplit "pbcopy" = .ok ["pbcopy"] ∧
    Copy shellSplit true demoOS "hello world" []
      = .ok ((Pipeline demoOS [⟨"echo", ["hello world"]⟩, ⟨"clip", []⟩] []).map
              (fun r => (r.err, r))) :=
  ⟨by decide, by decide, by decide,
    (Copy_runs_pipeline shellSplit true demoOS "hello world" []
      (by decide) (by decide) (by decide)).1⟩

/-- C9, the code at the failing input: on the spawn-and-wait strategy (`isWindows`
true) a program that the search path does not resolve makes `Run` return the lookup
error of `os/exec`, whose text is not `command not found: nosuch`, while the
process-replacing strategy returns `command not found: nosuch` for the same program. -/
theorem Run_spawn_not_found :
    windowsOS.lookPath "nosuch" []
      = .error "exec: \"nosuch\": executable file not found in %PATH%" ∧
    Run windowsOS true ⟨"nosuch", []⟩ []
      = .returned (some "exec: \"nosuch\": executable file not found in %PATH%") [] ∧
    Run windowsOS true ⟨"nosuch", []⟩ [] ≠ .returned (some "command not found: nosuch") [] ∧
    Run windowsOS false ⟨"nosuch", []⟩ [] = .returned (some "command not found: nosuch") [] := by
  decide

end RobCmd
